import Mathlib

/-!
Verification of the `math-renderer` incremental build pipeline
(`src/index.js`, `src/math-renderer.js`).

The development shallowly embeds the program:

* the two regular expressions of `processNode`
  (`/\$\$(.*?)\$\$/gs` and `/(?<!\\)\$([^\$]+?)\$/g`) become explicit
  scanners over `List Char` (`displayScan`, `inlineScan`), including the
  lazy-quantifier, global-continuation and lookbehind semantics of
  JavaScript `String.prototype.replace`;
* the DOM walk of `processNode` becomes a recursive function over an
  inductive `Node` tree, parameterised by the external collaborators
  (MathJax's `convert`/`adaptor.innerHTML` as an abstract
  `convert : String → Bool → String`, and fragment parsing via
  `wrapper.innerHTML` as an abstract `parseFragment : String → List Node`);
* `processHtml`, `isSrcNotChanged`, `md5`-reading, the `.md5` skip and the
  top-level `files.forEach(process)` loop become explicit state passing in
  an `Except` monad, with `fs.readFileSync` failure modelled as the
  `Except.error` value carried by a file entry.
-/

namespace MathRenderer

/-- Splits `l` at the first adjacent pair of dollar characters:
`findClose l = some (a, b)` when `l = a ++ [dollar, dollar] ++ b` and `a`
contains no adjacent dollar pair.  This is the search for the closing `$$`
performed by the lazy group in `/\$\$(.*?)\$\$/gs`. -/
def findClose : List Char → Option (List Char × List Char)
  | [] => none
  | c :: rest =>
    if c = '$' ∧ rest.head? = some '$' then some ([], rest.tail)
    else (findClose rest).map (fun p => (c :: p.1, p.2))

/-- Splits `l` at the first dollar character: the search for the closing
`$` of `/(?<!\\)\$([^\$]+?)\$/g` (the captured content is dollar-free). -/
def splitAtDollar : List Char → Option (List Char × List Char)
  | [] => none
  | c :: rest =>
    if c = '$' then some ([], rest)
    else (splitAtDollar rest).map (fun p => (c :: p.1, p.2))

/-- The literal wrapper the code puts around a display-mode conversion:
`<mjx-container display="true" style="...">${svg}</mjx-container>`. -/
def displayWrapChars (svg : String) : List Char :=
  ("<mjx-container display=\"true\" style=\"display: block; text-align: center; margin: 1em 0;\">" ++ svg ++ "</mjx-container>").data

/-- The global replace `text.replace(displayRegex, ...)` for
`displayRegex = /\$\$(.*?)\$\$/gs`: returns the rewritten character list
together with the list of `(texStr, displayMode)` arguments passed to the
MathJax `convert` collaborator, in call order. -/
def displayScan (convert : String → Bool → String) (l : List Char) :
    List Char × List (String × Bool) :=
  match l with
  | [] => ([], [])
  | c :: rest =>
    if h : c = '$' ∧ rest.head? = some '$' then
      match hf : findClose rest.tail with
      | some (content, rest') =>
        let out := displayScan convert rest'
        (displayWrapChars (convert (String.mk content) true) ++ out.1,
          (String.mk content, true) :: out.2)
      | none =>
        -- no adjacent dollar pair remains after the opening pair, so no
        -- further match is possible anywhere in the remainder
        (c :: rest, [])
    else
      let out := displayScan convert rest
      (c :: out.1, out.2)
termination_by l.length
decreasing_by
  · have hlen : ∀ (l a b : List Char), findClose l = some (a, b) → b.length < l.length := by
      intro l
      induction l with
      | nil => intro a b hh; simp [findClose] at hh
      | cons d t ihl =>
        intro a b hh
        rw [findClose] at hh
        split at hh
        · injection hh with hh2
          injection hh2 with e1 e2
          subst e2
          cases t with
          | nil => simp
          | cons d2 t2 =>
            simp only [List.tail_cons, List.length_cons]
            omega
        · rcases Option.map_eq_some'.mp hh with ⟨⟨a2, b2⟩, hfind2, heq2⟩
          injection heq2 with e1 e2
          subst e2
          have := ihl a2 b2 hfind2
          simp only [List.length_cons]
          omega
    have := hlen rest.tail content rest' hf
    cases rest with
    | nil => simp at h
    | cons d t =>
      simp at this ⊢
      omega
  · simp

/-- The global replace `text.replace(inlineRegex, ...)` for
`inlineRegex = /(?<!\\)\$([^\$]+?)\$/g`.  `prev` is the character
immediately before the current scan position (`none` at the start of the
string); the negative lookbehind `(?<!\\)` consults it. -/
def inlineScan (convert : String → Bool → String) (prev : Option Char) (l : List Char) :
    List Char × List (String × Bool) :=
  match l with
  | [] => ([], [])
  | c :: rest =>
    if c = '$' then
      if prev = some '\\' then
        -- lookbehind fails: this dollar cannot open a span
        let out := inlineScan convert (some '$') rest
        ('$' :: out.1, out.2)
      else
        match hs : splitAtDollar rest with
        | some (content, rest') =>
          if content.isEmpty then
            -- `[^$]+?` needs at least one character: no match at this
            -- opening dollar, resume at the next position
            let out := inlineScan convert (some '$') rest
            ('$' :: out.1, out.2)
          else
            let out := inlineScan convert (some '$') rest'
            ((convert (String.mk content) false).data ++ out.1,
              (String.mk content, false) :: out.2)
        | none =>
          -- no later dollar at all, so no further match is possible
          let out := inlineScan convert (some '$') rest
          ('$' :: out.1, out.2)
    else
      let out := inlineScan convert (some c) rest
      (c :: out.1, out.2)
termination_by l.length
decreasing_by
  all_goals simp only [List.length_cons]
  all_goals first
  | omega
  | (have hlen : ∀ (l a b : List Char), splitAtDollar l = some (a, b) → b.length < l.length := by
       intro l
       induction l with
       | nil => intro a b hh; simp [splitAtDollar] at hh
       | cons d t ihl =>
         intro a b hh
         rw [splitAtDollar] at hh
         split at hh
         · injection hh with hh2
           injection hh2 with e1 e2
           subst e2
           simp
         · rcases Option.map_eq_some'.mp hh with ⟨⟨a2, b2⟩, hfind2, heq2⟩
           injection heq2 with e1 e2
           subst e2
           have := ihl a2 b2 hfind2
           simp only [List.length_cons]
           omega
     have := hlen rest content rest' hs
     omega)

/-- `displayRegex.test(text)`: does `/\$\$(.*?)\$\$/gs` match anywhere?
(The regexes are freshly created on each `processNode` call, and a global
replace resets `lastIndex`, so the `test` calls are stateless here.) -/
def hasDisplayMatch (l : List Char) : Bool :=
  !(displayScan (fun _ _ => "") l).2.isEmpty

/-- `inlineRegex.test(text)`: does `/(?<!\\)\$([^\$]+?)\$/g` match anywhere? -/
def hasInlineMatch (l : List Char) : Bool :=
  !(inlineScan (fun _ _ => "") none l).2.isEmpty

/-- The text-node branch of `processNode`: if either regex matches, run the
display replace and then the inline replace on its output; returns the new
text, whether the node was replaced (`needsUpdate` contribution), and the
`convert` calls in order. -/
def processTextNode (convert : String → Bool → String) (t : String) :
    String × Bool × List (String × Bool) :=
  if hasDisplayMatch t.data || hasInlineMatch t.data then
    let d := displayScan convert t.data
    let i := inlineScan convert none d.1
    (String.mk i.1, true, d.2 ++ i.2)
  else
    (t, false, [])

/-- A JSDOM node, as far as `processNode` observes it: text nodes
(`nodeType === 3`) and elements with `nodeName`, `className`, an `id`
attribute (only used by the injected style tag) and children. -/
inductive Node where
  | text (s : String)
  | elem (name className idAttr : String) (children : List Node)

mutual

/-- `node.textContent`: concatenation of all descendant text, in order. -/
def textContent : Node → String
  | .text s => s
  | .elem _ _ _ children => textContentList children

def textContentList : List Node → String
  | [] => ""
  | n :: rest => textContent n ++ textContentList rest

end

/-- The external collaborators `processHtml` closes over: MathJax's
`adaptor.innerHTML(mjPage.convert(tex, display))` as `convert`, fragment
parsing via `wrapper.innerHTML = text; wrapper.childNodes` as
`parseFragment`, and `adaptor.innerHTML(svg.styleSheet(mjPage))` as
`stylesheet`. -/
structure Ctx where
  convert : String → Bool → String
  parseFragment : String → List Node
  stylesheet : String

def displayWrapStr (svg : String) : String :=
  String.mk (displayWrapChars svg)

mutual

/-- The recursive `processNode` walk.  Returns the list of nodes replacing
the given node (a singleton when the node is kept), the `needsUpdate`
contribution, and the list of `convert` calls in order.  Children are
walked over a snapshot (`Array.from(node.childNodes)`), so nodes spliced in
by a replacement are not re-processed — hence the concatenation of
per-child results in `processChildren`. -/
def processNode (ctx : Ctx) : Node → List Node × Bool × List (String × Bool)
  | .text t =>
    let r := processTextNode ctx.convert t
    if r.2.1 then (ctx.parseFragment r.1, true, r.2.2)
    else ([.text t], false, [])
  | .elem name className idAttr children =>
    if className = "latex-block" then
      let t := textContent (.elem name className idAttr children)
      (ctx.parseFragment (displayWrapStr (ctx.convert t true)), true, [(t, true)])
    else if name = "SCRIPT" ∨ name = "CODE" ∨ name = "PRE" then
      ([.elem name className idAttr children], false, [])
    else
      let r := processChildren ctx children
      ([.elem name className idAttr r.1], r.2.1, r.2.2)

def processChildren (ctx : Ctx) : List Node → List Node × Bool × List (String × Bool)
  | [] => ([], false, [])
  | n :: rest =>
    let r1 := processNode ctx n
    let r2 := processChildren ctx rest
    (r1.1 ++ r2.1, r1.2.1 || r2.2.1, r1.2.2 ++ r2.2.2)

end

/-- One parsed HTML document: `document.head`'s children and
`document.body`. -/
structure Doc where
  headNodes : List Node
  body : Node

/-- The style tag `processHtml` builds:
`createElement('style'); setAttribute('id', 'MJX-SVG-styles')` with the
MathJax stylesheet as its content. -/
def mjxStyleTag (css : String) : Node :=
  .elem "STYLE" "" "MJX-SVG-styles" [.text css]

/-- What `processHtml` does to the destination: write the re-serialized
document (with the style tag appended to the head and the transformed
body), or byte-copy the source file unchanged. -/
inductive HtmlResult where
  | rendered (headNodes : List Node) (bodyNodes : List Node)
  | copiedUnchanged

/-- `processHtml` after parsing: run `processNode` on the body; if anything
was substituted, append the MathJax style tag to the head and serialize;
otherwise byte-copy the file. -/
def processHtml (ctx : Ctx) (doc : Doc) : HtmlResult :=
  let r := processNode ctx doc.body
  if r.2.1 then
    .rendered (doc.headNodes ++ [mjxStyleTag ctx.stylesheet]) r.1
  else
    .copiedUnchanged

/-- A synchronous I/O failure (what a throwing `fs.readFileSync` produces). -/
inductive IOErr where
  | readFailed (msg : String)
deriving DecidableEq, Repr

/-- The `stat` counters of the run. -/
structure Stat where
  directories : Nat
  rendered : Nat
  copied : Nat
  skipped : Nat
deriving DecidableEq, Repr

/-- Observable filesystem side effects of one run, in order. -/
inductive Action where
  | mkdirA (dir : String)
  | copyA (src dst : String)
  | writeRenderedA (dst : String)
deriving DecidableEq, Repr

/-- The in-memory `cache` object (a JSON map path → md5 hex string). -/
def Cache := List (String × String)

def lookupC (cache : Cache) (k : String) : Option String :=
  (cache.find? fun e => e.1 == k).map (·.2)

def insertC (cache : Cache) (k v : String) : Cache :=
  (k, v) :: cache.eraseP fun e => e.1 == k

/-- Mutable state threaded through the run: the cache object, the `stat`
counters and the log of filesystem actions. -/
structure RunState where
  cache : Cache
  stat : Stat
  actions : List Action

/-- `isSrcNotChanged`, after the `md5(src)` read has produced `content`:
compare `cache[src]` with the fresh hash; on mismatch store the fresh
hash.  Returns `(same, updated cache)`. -/
def isSrcNotChanged (md5 : String → String) (src content : String) (cache : Cache) :
    Bool × Cache :=
  let newMd5 := md5 content
  let same := lookupC cache src == some newMd5
  (same, if same then cache else insertC cache src newMd5)

/-- One entry produced by the glob enumeration.  For a file, `content` is
what `fs.readFileSync` yields for it during this run (the code reads a
file at most twice in one entry, with the same result). -/
inductive Entry where
  | dirE (path : String)
  | fileE (path : String) (content : Except IOErr String)

/-- The external collaborators of the pipeline: the md5 of a content
string, the JSDOM parse of an HTML file, and the `processHtml` context. -/
structure Env where
  md5 : String → String
  parseDoc : String → Doc
  ctx : Ctx

/-- `getTargetPathFrom`: `sourcePath.replace(publicDir, targetDir)` —
JavaScript `String.replace` with a string pattern rewrites only the first
occurrence. -/
def replaceFirstChars (pat rep : List Char) : List Char → List Char
  | [] => []
  | c :: rest =>
    if pat.isPrefixOf (c :: rest) then rep ++ (c :: rest).drop pat.length
    else c :: replaceFirstChars pat rep rest

def getTargetPathFrom (sourcePath : String) : String :=
  String.mk (replaceFirstChars "public".data "rendered-public".data sourcePath.data)

/-- `sourcePath.endsWith(suffix)` (spelled out over the character lists so
that it evaluates by `decide`). -/
def endsWithSuffix (s suffix : String) : Bool :=
  suffix.data.isSuffixOf s.data

/-- The per-entry `process` function.  A throwing `readFileSync` (inside
`md5`) propagates as `Except.error`, exactly as the unguarded exception
does in the source. -/
def processEntry (env : Env) (st : RunState) : Entry → Except IOErr RunState
  | .dirE p =>
    .ok { st with
          stat := { st.stat with directories := st.stat.directories + 1 },
          actions := st.actions ++ [.mkdirA (getTargetPathFrom p)] }
  | .fileE p content =>
    if endsWithSuffix p ".md5" then .ok st
    else
      match content with
      | .error e => .error e
      | .ok c =>
        let r := isSrcNotChanged env.md5 p c st.cache
        if r.1 then
          .ok { st with
                cache := r.2,
                stat := { st.stat with skipped := st.stat.skipped + 1 } }
        else
          let st1 : RunState := { st with cache := r.2 }
          let tp := getTargetPathFrom p
          if endsWithSuffix p ".html" then
            match processHtml env.ctx (env.parseDoc c) with
            | .rendered _ _ =>
              .ok { st1 with
                    stat := { st1.stat with rendered := st1.stat.rendered + 1 },
                    actions := st1.actions ++ [.writeRenderedA tp] }
            | .copiedUnchanged =>
              .ok { st1 with
                    stat := { st1.stat with copied := st1.stat.copied + 1 },
                    actions := st1.actions ++ [.copyA p tp] }
          else
            .ok { st1 with
                  stat := { st1.stat with copied := st1.stat.copied + 1 },
                  actions := st1.actions ++ [.copyA p tp] }

/-- `files.forEach(f => process(f))`: sequential, and an uncaught throw in
one `process` call aborts the whole loop. -/
def runEntries (env : Env) : List Entry → RunState → Except IOErr RunState
  | [], st => .ok st
  | e :: rest, st =>
    match processEntry env st e with
    | .error err => .error err
    | .ok st' => runEntries env rest st'

def initialState (cache0 : Cache) : RunState :=
  { cache := cache0, stat := ⟨0, 0, 0, 0⟩, actions := [] }

/-- The whole run: process every enumerated entry, then (only if the loop
completed) write the cache file.  The second component of the result is
the cache mapping persisted to `math-cache.json`. -/
def run (env : Env) (cache0 : Cache) (entries : List Entry) :
    Except IOErr (RunState × Cache) :=
  match runEntries env entries (initialState cache0) with
  | .error e => .error e
  | .ok st => .ok (st, st.cache)

/-- The character just before the scan position after consuming `s`
starting from `prev` (used to track the lookbehind across appended
segments). -/
def lastD (prev : Option Char) (s : List Char) : Option Char :=
  s.foldl (fun _ c => some c) prev

/-- The number of elements in a node list that bear the stable stylesheet
identifier `MJX-SVG-styles`. -/
def countMjxStyle (ns : List Node) : Nat :=
  ns.countP fun n =>
    match n with
    | .elem _ _ idAttr _ => idAttr == "MJX-SVG-styles"
    | _ => false

/-! ## Concrete instantiations of the external collaborators, used by the
closed witness statements. -/

def ctxW : Ctx :=
  { convert := fun s _ => s, parseFragment := fun s => [.text s], stylesheet := "css" }

def envW : Env :=
  { md5 := fun c => c, parseDoc := fun _ => ⟨[], .text ""⟩, ctx := ctxW }

/-! ## Helper lemmas -/

theorem lookupC_insertC_self (cache : Cache) (k v : String) :
    lookupC (insertC cache k v) k = some v := by
  simp [lookupC, insertC]

theorem isSrcNotChanged_fst_iff (md5 : String → String) (src c : String) (cache : Cache) :
    (isSrcNotChanged md5 src c cache).1 = true ↔ lookupC cache src = some (md5 c) := by
  simp [isSrcNotChanged]

theorem isSrcNotChanged_snd_lookup (md5 : String → String) (src c : String) (cache : Cache) :
    lookupC (isSrcNotChanged md5 src c cache).2 src = some (md5 c) := by
  by_cases h : lookupC cache src = some (md5 c)
  · simp [isSrcNotChanged, h]
  · simp [isSrcNotChanged, h, lookupC_insertC_self]

theorem processEntry_ok_cache (env : Env) (st : RunState) (p c : String) (st1 : RunState)
    (hmd5 : endsWithSuffix p ".md5" = false)
    (h : processEntry env st (.fileE p (.ok c)) = .ok st1) :
    st1.cache = (isSrcNotChanged env.md5 p c st.cache).2 := by
  simp only [processEntry, hmd5, Bool.false_eq_true, if_false] at h
  split at h
  · injection h with h'
    subst h'
    rfl
  · split at h
    · split at h
      · injection h with h'
        subst h'
        rfl
      · injection h with h'
        subst h'
        rfl
    · injection h with h'
      subst h'
      rfl

theorem runEntries_append (env : Env) (l1 l2 : List Entry) (st : RunState) :
    runEntries env (l1 ++ l2) st =
      match runEntries env l1 st with
      | .error e => .error e
      | .ok st' => runEntries env l2 st' := by
  induction l1 generalizing st with
  | nil => simp [runEntries]
  | cons e rest ih =>
    simp only [List.cons_append, runEntries]
    cases processEntry env st e with
    | error err => simp
    | ok st' => simpa using ih st'

/-! ## Claim theorems: pipeline -/

/-- C9: a file entry whose path ends with the legacy `.md5` sidecar suffix
is skipped entirely by `process`: the run state (cache, statistics
counters, filesystem actions) is returned unchanged and its content is
never even read (the theorem holds for an entry whose read would fail). -/
theorem md5_sidecar_skipped_entirely (env : Env) (st : RunState) (p : String)
    (content : Except IOErr String) (h : endsWithSuffix p ".md5" = true) :
    processEntry env st (.fileE p content) = .ok st := by
  simp [processEntry, h]

theorem md5_sidecar_skipped_entirely_witness :
    endsWithSuffix "post.html.md5" ".md5" = true ∧
    processEntry envW (initialState []) (.fileE "post.html.md5" (.error (.readFailed "EACCES")))
      = .ok (initialState []) :=
  ⟨by decide,
   md5_sidecar_skipped_entirely envW (initialState []) "post.html.md5"
     (.error (.readFailed "EACCES")) (by decide)⟩

/-- C1 (code_bug evidence): `process` in `src/math-renderer.js` consults
`isSrcNotChanged` unconditionally — it takes no options and the `--force`
flag declared in `src/index.js` never reaches it (the module does not even
export the `render` function `index.js` imports).  Consequently a file
whose cached fingerprint matches its current content hash is skipped, with
no code path on which a force option could bypass the check. -/
theorem cached_file_skipped_with_no_force_bypass (env : Env) (st : RunState) (p c : String)
    (hmd5 : endsWithSuffix p ".md5" = false)
    (hcache : lookupC st.cache p = some (env.md5 c)) :
    processEntry env st (.fileE p (.ok c)) =
      .ok { st with stat := { st.stat with skipped := st.stat.skipped + 1 } } := by
  simp [processEntry, hmd5, isSrcNotChanged, hcache]

theorem cached_file_skipped_with_no_force_bypass_witness :
    endsWithSuffix "a.txt" ".md5" = false ∧
    lookupC [("a.txt", "hi")] "a.txt" = some (envW.md5 "hi") ∧
    processEntry envW ⟨[("a.txt", "hi")], ⟨0, 0, 0, 0⟩, []⟩ (.fileE "a.txt" (.ok "hi"))
      = .ok ⟨[("a.txt", "hi")], ⟨0, 0, 0, 1⟩, []⟩ :=
  ⟨by decide, rfl,
   cached_file_skipped_with_no_force_bypass envW ⟨[("a.txt", "hi")], ⟨0, 0, 0, 0⟩, []⟩
     "a.txt" "hi" (by decide) rfl⟩

/-- C2 counterexample: a per-file read failure is NOT isolated.  With file
`a.txt` unreadable, the whole run aborts with that error — the following
file `b.txt` is not processed and no cache is persisted — whereas a run
containing only `b.txt` copies it. -/
theorem per_file_failure_not_isolated_cex :
    run envW [] [.fileE "a.txt" (.error (.readFailed "EACCES")), .fileE "b.txt" (.ok "hi")]
      = .error (.readFailed "EACCES") ∧
    run envW [] [.fileE "b.txt" (.ok "hi")]
      = .ok (⟨[("b.txt", "hi")], ⟨0, 0, 1, 0⟩, [.copyA "b.txt" "b.txt"]⟩, [("b.txt", "hi")]) :=
  ⟨rfl, rfl⟩

/-- C2 amended: when reading one file fails, the failure is not isolated:
the run aborts at that file with the error, the remaining entries are
never processed, and no cache file is written at all (the persisted cache
exists only in the `.ok` result), so no file's cache entry — including the
failing one's — is updated on disk and every file is re-examined on the
next run. -/
theorem read_failure_aborts_rest_of_run (env : Env) (cache0 : Cache)
    (pre post : List Entry) (p : String) (e : IOErr) (st : RunState)
    (hpre : runEntries env pre (initialState cache0) = .ok st)
    (hmd5 : endsWithSuffix p ".md5" = false) :
    run env cache0 (pre ++ .fileE p (.error e) :: post) = .error e := by
  simp [run, runEntries_append, hpre, runEntries, processEntry, hmd5]

theorem read_failure_aborts_rest_of_run_witness :
    runEntries envW [.fileE "c.txt" (.ok "v")] (initialState []) =
      .ok ⟨[("c.txt", "v")], ⟨0, 0, 1, 0⟩, [.copyA "c.txt" "c.txt"]⟩ ∧
    endsWithSuffix "a.txt" ".md5" = false ∧
    run envW [] ([.fileE "c.txt" (.ok "v")] ++
        .fileE "a.txt" (.error (.readFailed "EIO")) :: [.fileE "b.txt" (.ok "hi")])
      = .error (.readFailed "EIO") :=
  ⟨rfl, by decide,
   read_failure_aborts_rest_of_run envW [] [.fileE "c.txt" (.ok "v")]
     [.fileE "b.txt" (.ok "hi")] "a.txt" (.readFailed "EIO")
     ⟨[("c.txt", "v")], ⟨0, 0, 1, 0⟩, [.copyA "c.txt" "c.txt"]⟩ rfl (by decide)⟩

/-- C3: `isSrcNotChanged` returns true iff the stored fingerprint for the
path equals the freshly computed content hash, and afterwards the
in-memory store maps the path to the fresh hash in all cases.
Consequently, after a run has processed the file with content `c1`, a
second run seeing an equal hash skips it (`skipped` incremented, nothing
else changed) and a differing hash reprocesses it (one of
`rendered`/`copied` incremented, `skipped` unchanged). -/
theorem change_cache_correct (env : Env) (st st1 : RunState) (p c1 c2 : String)
    (hmd5 : endsWithSuffix p ".md5" = false)
    (h1 : processEntry env st (.fileE p (.ok c1)) = .ok st1) :
    ((isSrcNotChanged env.md5 p c1 st.cache).1 = true ↔
        lookupC st.cache p = some (env.md5 c1)) ∧
    lookupC (isSrcNotChanged env.md5 p c1 st.cache).2 p = some (env.md5 c1) ∧
    (env.md5 c2 = env.md5 c1 →
       processEntry env st1 (.fileE p (.ok c2)) =
         .ok { st1 with stat := { st1.stat with skipped := st1.stat.skipped + 1 } }) ∧
    (env.md5 c2 ≠ env.md5 c1 →
       ∃ st2, processEntry env st1 (.fileE p (.ok c2)) = .ok st2 ∧
         st2.stat.skipped = st1.stat.skipped ∧
         st2.stat.rendered + st2.stat.copied = st1.stat.rendered + st1.stat.copied + 1) := by
  have hc : lookupC st1.cache p = some (env.md5 c1) := by
    rw [processEntry_ok_cache env st p c1 st1 hmd5 h1]
    exact isSrcNotChanged_snd_lookup env.md5 p c1 st.cache
  refine ⟨isSrcNotChanged_fst_iff env.md5 p c1 st.cache,
          isSrcNotChanged_snd_lookup env.md5 p c1 st.cache, ?_, ?_⟩
  · intro he
    have hc2 : lookupC st1.cache p = some (env.md5 c2) := by rw [hc, he]
    simp [processEntry, hmd5, isSrcNotChanged, hc2]
  · intro hne
    have hf : (isSrcNotChanged env.md5 p c2 st1.cache).1 = false := by
      simp [isSrcNotChanged, hc]
      exact fun heq => absurd heq.symm hne
    simp only [processEntry, hmd5, Bool.false_eq_true, if_false, hf]
    split
    · split
      · exact ⟨_, rfl, by simp, by simp [Nat.add_right_comm]⟩
      · exact ⟨_, rfl, by simp, by simp; omega⟩
    · exact ⟨_, rfl, by simp, by simp; omega⟩

theorem change_cache_correct_witness :
    endsWithSuffix "a.txt" ".md5" = false ∧
    processEntry envW (initialState []) (.fileE "a.txt" (.ok "v1"))
      = .ok ⟨[("a.txt", "v1")], ⟨0, 0, 1, 0⟩, [.copyA "a.txt" "a.txt"]⟩ ∧
    (((isSrcNotChanged envW.md5 "a.txt" "v1" (initialState []).cache).1 = true ↔
        lookupC (initialState []).cache "a.txt" = some (envW.md5 "v1")) ∧
     lookupC (isSrcNotChanged envW.md5 "a.txt" "v1" (initialState []).cache).2 "a.txt"
       = some (envW.md5 "v1") ∧
     (envW.md5 "v2" = envW.md5 "v1" →
        processEntry envW ⟨[("a.txt", "v1")], ⟨0, 0, 1, 0⟩, [.copyA "a.txt" "a.txt"]⟩
            (.fileE "a.txt" (.ok "v2"))
          = .ok ⟨[("a.txt", "v1")], ⟨0, 0, 1, 1⟩, [.copyA "a.txt" "a.txt"]⟩) ∧
     (envW.md5 "v2" ≠ envW.md5 "v1" →
        ∃ st2, processEntry envW ⟨[("a.txt", "v1")], ⟨0, 0, 1, 0⟩, [.copyA "a.txt" "a.txt"]⟩
            (.fileE "a.txt" (.ok "v2")) = .ok st2 ∧
          st2.stat.skipped = 0 ∧
          st2.stat.rendered + st2.stat.copied = 0 + 1 + 1)) :=
  ⟨by decide, rfl,
   change_cache_correct envW (initialState [])
     ⟨[("a.txt", "v1")], ⟨0, 0, 1, 0⟩, [.copyA "a.txt" "a.txt"]⟩
     "a.txt" "v1" "v2" (by decide) rfl⟩

/-! ## Claim theorems: DOM transformation -/

/-- C7: an element carrying the `latex-block` marker class has its entire
text content rendered as exactly one display-mode expression — a single
`convert` call with `display = true` on the whole `textContent`, no inner
delimiter matching — and the element is wholly replaced by the parsed
rendered markup. -/
theorem marked_block_rendered_whole (ctx : Ctx) (name cls idAttr : String)
    (children : List Node) (h : cls = "latex-block") :
    processNode ctx (.elem name cls idAttr children) =
      (ctx.parseFragment (displayWrapStr
          (ctx.convert (textContent (.elem name cls idAttr children)) true)),
       true,
       [(textContent (.elem name cls idAttr children), true)]) := by
  subst h
  simp [processNode]

theorem marked_block_rendered_whole_witness :
    "latex-block" = "latex-block" ∧
    processNode ctxW (.elem "DIV" "latex-block" "" [.text "$a$ and $b$"]) =
      (ctxW.parseFragment (displayWrapStr
          (ctxW.convert (textContent (.elem "DIV" "latex-block" "" [.text "$a$ and $b$"])) true)),
       true,
       [(textContent (.elem "DIV" "latex-block" "" [.text "$a$ and $b$"]), true)]) :=
  ⟨rfl, marked_block_rendered_whole ctxW "DIV" "latex-block" "" [.text "$a$ and $b$"] rfl⟩

/-- C10: the `latex-block` marker check is performed before the
SCRIPT/CODE/PRE opaque-container check, so a marked element is rendered as
a display math block even when its tag is one of the opaque ones. -/
theorem marker_class_precedes_opaque_tags (ctx : Ctx) (name idAttr : String)
    (children : List Node) (h : name = "SCRIPT" ∨ name = "CODE" ∨ name = "PRE") :
    processNode ctx (.elem name "latex-block" idAttr children) =
      (ctx.parseFragment (displayWrapStr
          (ctx.convert (textContent (.elem name "latex-block" idAttr children)) true)),
       true,
       [(textContent (.elem name "latex-block" idAttr children), true)]) := by
  simp [processNode]

theorem marker_class_precedes_opaque_tags_witness :
    ("SCRIPT" = "SCRIPT" ∨ "SCRIPT" = "CODE" ∨ "SCRIPT" = "PRE") ∧
    processNode ctxW (.elem "SCRIPT" "latex-block" "" [.text "x+y"]) =
      (ctxW.parseFragment (displayWrapStr
          (ctxW.convert (textContent (.elem "SCRIPT" "latex-block" "" [.text "x+y"])) true)),
       true,
       [(textContent (.elem "SCRIPT" "latex-block" "" [.text "x+y"]), true)]) :=
  ⟨Or.inl rfl,
   marker_class_precedes_opaque_tags ctxW "SCRIPT" "" [.text "x+y"] (Or.inl rfl)⟩

/-- C6 counterexample: a CODE element that carries the `latex-block`
marker class is NOT left unchanged — its text content is rendered (one
display-mode `convert` call) and the element is replaced — refuting the
claim that the subtree of every code element is left unchanged and its
math-looking text never rendered. -/
theorem opaque_marked_element_rendered_cex :
    (processNode ctxW (.elem "CODE" "latex-block" "" [.text "$x$"])).2.2
      = [("$x$", true)] ∧
    (processNode ctxW (.elem "CODE" "latex-block" "" [.text "$x$"])).1
      ≠ [.elem "CODE" "latex-block" "" [.text "$x$"]] := by
  constructor
  · simp [processNode, textContent, textContentList, ctxW]
  · simp [processNode, textContent, textContentList, ctxW]

/-- C6 amended: for every SCRIPT, CODE or PRE element that does not carry
the `latex-block` marker class, the transformation never descends into the
element: it is returned unchanged, contributes no update flag and performs
no render call (an opaque element that does carry the marker class is
instead wholly replaced by a display-mode render of its text content, see
the counterexample and C10). -/
theorem opaque_unmarked_never_descended (ctx : Ctx) (name cls idAttr : String)
    (children : List Node)
    (hname : name = "SCRIPT" ∨ name = "CODE" ∨ name = "PRE")
    (hcls : cls ≠ "latex-block") :
    processNode ctx (.elem name cls idAttr children) =
      ([.elem name cls idAttr children], false, []) := by
  simp [processNode, hcls, hname]

theorem opaque_unmarked_never_descended_witness :
    ("PRE" = "SCRIPT" ∨ "PRE" = "CODE" ∨ "PRE" = "PRE") ∧
    ("sourcecode" ≠ "latex-block") ∧
    processNode ctxW (.elem "PRE" "sourcecode" "" [.text "$$a+b$$ and $c$"]) =
      ([.elem "PRE" "sourcecode" "" [.text "$$a+b$$ and $c$"]], false, []) :=
  ⟨Or.inr (Or.inr rfl), by decide,
   opaque_unmarked_never_descended ctxW "PRE" "sourcecode" ""
     [.text "$$a+b$$ and $c$"] (Or.inr (Or.inr rfl)) (by decide)⟩

/-- C8: when at least one substitution occurred in the body, `processHtml`
serializes the document with exactly one stylesheet element bearing the
stable identifier appended to the head (one per file, however many spans
were rendered); with zero substitutions it byte-copies the file and
injects nothing. -/
theorem stylesheet_injected_exactly_once (ctx : Ctx) (doc : Doc)
    (hclean : countMjxStyle doc.headNodes = 0) :
    ((processNode ctx doc.body).2.1 = true →
       processHtml ctx doc =
         .rendered (doc.headNodes ++ [mjxStyleTag ctx.stylesheet])
           (processNode ctx doc.body).1 ∧
       countMjxStyle (doc.headNodes ++ [mjxStyleTag ctx.stylesheet]) = 1) ∧
    ((processNode ctx doc.body).2.1 = false →
       processHtml ctx doc = .copiedUnchanged) := by
  refine ⟨fun h => ⟨by simp [processHtml, h], ?_⟩, fun h => by simp [processHtml, h]⟩
  simp [countMjxStyle, mjxStyleTag] at hclean ⊢
  exact hclean

theorem stylesheet_injected_exactly_once_witness :
    countMjxStyle ([] : List Node) = 0 ∧
    (((processNode ctxW (Doc.mk [] (.text "$x$")).body).2.1 = true →
        processHtml ctxW (Doc.mk [] (.text "$x$")) =
          .rendered ([] ++ [mjxStyleTag ctxW.stylesheet])
            (processNode ctxW (Doc.mk [] (.text "$x$")).body).1 ∧
        countMjxStyle ([] ++ [mjxStyleTag ctxW.stylesheet]) = 1) ∧
     ((processNode ctxW (Doc.mk [] (.text "$x$")).body).2.1 = false →
        processHtml ctxW (Doc.mk [] (.text "$x$")) = .copiedUnchanged)) :=
  ⟨rfl, stylesheet_injected_exactly_once ctxW (Doc.mk [] (.text "$x$")) rfl⟩

/-! ## Scanner unfolding lemmas (one per branch of the two global
replaces) -/

theorem displayScan_open_some (convert : String → Bool → String) (c : Char)
    (rest content rest' : List Char) (h : c = '$' ∧ rest.head? = some '$')
    (hf : findClose rest.tail = some (content, rest')) :
    displayScan convert (c :: rest) =
      (displayWrapChars (convert (String.mk content) true) ++ (displayScan convert rest').1,
        (String.mk content, true) :: (displayScan convert rest').2) := by
  rw [displayScan]
  rw [dif_pos h]
  split
  · rename_i content2 rest2 heq
    rw [hf] at heq
    injection heq with heq'
    injection heq' with e1 e2
    subst e1
    subst e2
    rfl
  · rename_i heq
    rw [hf] at heq
    exact absurd heq (by simp)

theorem displayScan_open_none (convert : String → Bool → String) (c : Char)
    (rest : List Char) (h : c = '$' ∧ rest.head? = some '$')
    (hf : findClose rest.tail = none) :
    displayScan convert (c :: rest) = (c :: rest, []) := by
  rw [displayScan]
  rw [dif_pos h]
  split
  · rename_i content2 rest2 heq
    rw [hf] at heq
    exact absurd heq (by simp)
  · rfl

theorem displayScan_no_open (convert : String → Bool → String) (c : Char)
    (rest : List Char) (h : ¬(c = '$' ∧ rest.head? = some '$')) :
    displayScan convert (c :: rest) =
      (c :: (displayScan convert rest).1, (displayScan convert rest).2) := by
  rw [displayScan]
  rw [dif_neg h]

theorem inlineScan_escaped (convert : String → Bool → String) (rest : List Char) :
    inlineScan convert (some '\\') ('$' :: rest) =
      ('$' :: (inlineScan convert (some '$') rest).1, (inlineScan convert (some '$') rest).2) := by
  rw [inlineScan]
  simp

theorem inlineScan_open_empty (convert : String → Bool → String) (prev : Option Char)
    (rest rest' : List Char) (hprev : prev ≠ some '\\')
    (hs : splitAtDollar rest = some ([], rest')) :
    inlineScan convert prev ('$' :: rest) =
      ('$' :: (inlineScan convert (some '$') rest).1, (inlineScan convert (some '$') rest).2) := by
  rw [inlineScan]
  simp only [if_neg hprev]
  split
  · split
    · rename_i content2 rest2 heq
      rw [hs] at heq
      injection heq with heq'
      injection heq' with e1 e2
      subst e1
      simp
    · rfl
  · rfl

theorem inlineScan_open_match (convert : String → Bool → String) (prev : Option Char)
    (rest content rest' : List Char) (hprev : prev ≠ some '\\')
    (hs : splitAtDollar rest = some (content, rest')) (hne : content ≠ []) :
    inlineScan convert prev ('$' :: rest) =
      ((convert (String.mk content) false).data ++ (inlineScan convert (some '$') rest').1,
        (String.mk content, false) :: (inlineScan convert (some '$') rest').2) := by
  rw [inlineScan]
  simp only [if_neg hprev]
  split
  · split
    · rename_i content2 rest2 heq
      rw [hs] at heq
      injection heq with heq'
      injection heq' with e1 e2
      subst e1
      subst e2
      rw [if_neg (by simpa using hne)]
    · rename_i heq
      rw [hs] at heq
      exact absurd heq (by simp)
  · rename_i heq
    simp at heq

theorem inlineScan_open_none (convert : String → Bool → String) (prev : Option Char)
    (rest : List Char) (hprev : prev ≠ some '\\')
    (hs : splitAtDollar rest = none) :
    inlineScan convert prev ('$' :: rest) =
      ('$' :: (inlineScan convert (some '$') rest).1, (inlineScan convert (some '$') rest).2) := by
  rw [inlineScan]
  simp only [if_neg hprev]
  split
  · split
    · rename_i content2 rest2 heq
      rw [hs] at heq
      exact absurd heq (by simp)
    · rfl
  · rfl

theorem inlineScan_other (convert : String → Bool → String) (prev : Option Char)
    (c : Char) (rest : List Char) (hc : c ≠ '$') :
    inlineScan convert prev (c :: rest) =
      (c :: (inlineScan convert (some c) rest).1, (inlineScan convert (some c) rest).2) := by
  rw [inlineScan]
  rw [if_neg hc]

/-- Every call made by the display replace has `displayMode = true`. -/
theorem displayScan_calls_flag (convert : String → Bool → String) (l : List Char) :
    ∀ p ∈ (displayScan convert l).2, p.2 = true := by
  induction l using displayScan.induct convert with
  | case1 => simp [displayScan]
  | case2 c rest h content rest' hf ih =>
    intro p hp
    rw [displayScan_open_some convert c rest content rest' h hf] at hp
    simp at hp
    rcases hp with h1 | h2
    · rw [h1]
    · exact ih p h2
  | case3 c rest h hf =>
    intro p hp
    rw [displayScan_open_none convert c rest h hf] at hp
    simp at hp
  | case4 c rest h ih =>
    intro p hp
    rw [displayScan_no_open convert c rest h] at hp
    exact ih p hp

/-- Every call made by the inline replace has `displayMode = false`. -/
theorem inlineScan_calls_flag (convert : String → Bool → String) (prev : Option Char)
    (l : List Char) : ∀ p ∈ (inlineScan convert prev l).2, p.2 = false := by
  induction prev, l using inlineScan.induct convert with
  | case1 prev => simp [inlineScan]
  | case2 rest ih =>
    intro p hp
    rw [inlineScan_escaped] at hp
    exact ih p hp
  | case3 prev rest hprev content rest' hs hemp ih =>
    intro p hp
    rw [List.isEmpty_iff] at hemp
    subst hemp
    rw [inlineScan_open_empty convert prev rest rest' hprev hs] at hp
    exact ih p hp
  | case4 prev rest hprev content rest' hs hemp ih =>
    intro p hp
    rw [List.isEmpty_iff] at hemp
    rw [inlineScan_open_match convert prev rest content rest' hprev hs hemp] at hp
    simp at hp
    rcases hp with h1 | h2
    · rw [h1]
    · exact ih p h2
  | case5 prev rest hprev hs ih =>
    intro p hp
    rw [inlineScan_open_none convert prev rest hprev hs] at hp
    exact ih p hp
  | case6 prev c rest hc ih =>
    intro p hp
    rw [inlineScan_other convert prev c rest hc] at hp
    exact ih p hp

theorem lastD_append (p : Option Char) (a b : List Char) :
    lastD p (a ++ b) = lastD (lastD p a) b := by
  simp [lastD, List.foldl_append]

/-- The inline replace passes a dollar-free segment through unchanged and
resumes behind it with the lookbehind set to the segment's last
character. -/
theorem inlineScan_append_noDollar (convert : String → Bool → String) (t : List Char) :
    ∀ (s : List Char) (prev : Option Char), (∀ c ∈ s, c ≠ '$') →
    inlineScan convert prev (s ++ t) =
      (s ++ (inlineScan convert (lastD prev s) t).1,
       (inlineScan convert (lastD prev s) t).2) := by
  intro s
  induction s with
  | nil => intro prev h; simp [lastD]
  | cons c s' ih =>
    intro prev h
    have hc : c ≠ '$' := h c (List.mem_cons_self c s')
    rw [List.cons_append, inlineScan_other convert prev c (s' ++ t) hc]
    rw [ih (some c) (fun d hd => h d (List.mem_cons_of_mem c hd))]
    simp [lastD]

/-! ## Claim theorems: text scanning -/

/-- C5: an escaped single dollar never starts an inline math span.  For
the text node `price is \$5 and $x$` (with a literal backslash before the
first dollar), only `x` is rendered — one inline-mode `convert` call — and
the escaped `$5` (backslash included) stays literally in the output, which
is exactly the prefix `price is \$5 and ` followed by the rendered
markup. -/
theorem escaped_dollar_stays_literal (convert : String → Bool → String) :
    processTextNode convert "price is \\$5 and $x$" =
      ("price is \\$5 and " ++ convert "x" false, true, [("x", false)]) := by
  simp [processTextNode, hasDisplayMatch, hasInlineMatch, displayScan, inlineScan,
    splitAtDollar, findClose]
  rfl

/-- C4: display-pattern matches are resolved before inline-pattern
matches.  For the text node `$$a+b$$ and $c$`, provided the rendered
display markup contains no dollar character, the `convert` calls are
exactly one display-mode render of `a+b` followed by one inline-mode
render of `c` — the `$$...$$` span is never parsed as two adjacent inline
spans.  In general, every display-mode call of a text node precedes every
inline-mode call. -/
theorem display_before_inline (convert : String → Bool → String)
    (hnd : ∀ c ∈ (convert "a+b" true).data, c ≠ '$') :
    (processTextNode convert "$$a+b$$ and $c$").2.2 = [("a+b", true), ("c", false)] ∧
    (∀ t : String, ∃ dc ic, (processTextNode convert t).2.2 = dc ++ ic ∧
       (∀ p ∈ dc, p.2 = true) ∧ (∀ p ∈ ic, p.2 = false)) := by
  constructor
  · have hd : displayScan convert "$$a+b$$ and $c$".data =
        (displayWrapChars (convert "a+b" true) ++ " and $c$".data, [("a+b", true)]) := by
      simp [displayScan, findClose, displayWrapChars]
    have hpre : ∀ c ∈ ("<mjx-container display=\"true\" style=\"display: block; text-align: center; margin: 1em 0;\">").data, c ≠ '$' := by decide
    have hsuf : ∀ c ∈ ("</mjx-container>").data, c ≠ '$' := by decide
    have hnod : ∀ c ∈ displayWrapChars (convert "a+b" true), c ≠ '$' := by
      intro c hc
      simp only [displayWrapChars, String.data_append] at hc
      rcases List.mem_append.mp hc with h1 | h2
      · rcases List.mem_append.mp h1 with h3 | h4
        · exact hpre c h3
        · exact hnd c h4
      · exact hsuf c h2
    have hlast : lastD none (displayWrapChars (convert "a+b" true)) = some '>' := by
      have he : displayWrapChars (convert "a+b" true) =
          (("<mjx-container display=\"true\" style=\"display: block; text-align: center; margin: 1em 0;\">").data ++ (convert "a+b" true).data) ++ ("</mjx-container>").data := by
        simp [displayWrapChars]
      rw [he, lastD_append]
      rfl
    have hi : inlineScan convert (some '>') " and $c$".data =
        (" and ".data ++ (convert "c" false).data, [("c", false)]) := by
      simp [inlineScan, splitAtDollar]
    have hw := inlineScan_append_noDollar convert " and $c$".data
      (displayWrapChars (convert "a+b" true)) none hnod
    have hcond : hasDisplayMatch "$$a+b$$ and $c$".data = true := by
      simp [hasDisplayMatch, displayScan, findClose]
    simp only [processTextNode, hcond, Bool.true_or, if_pos]
    rw [hd]
    simp only []
    rw [hw, hlast, hi]
    rfl
  · intro t
    by_cases hcond : (hasDisplayMatch t.data || hasInlineMatch t.data) = true
    · refine ⟨(displayScan convert t.data).2,
        (inlineScan convert none (displayScan convert t.data).1).2, ?_,
        displayScan_calls_flag convert t.data,
        inlineScan_calls_flag convert none (displayScan convert t.data).1⟩
      simp [processTextNode, hcond]
    · refine ⟨[], [], ?_, by simp, by simp⟩
      simp [processTextNode, hcond]

theorem display_before_inline_witness :
    (∀ c ∈ (((fun (_ : String) (_ : Bool) => "Z") "a+b" true) : String).data, c ≠ '$') ∧
    ((processTextNode (fun _ _ => "Z") "$$a+b$$ and $c$").2.2 = [("a+b", true), ("c", false)] ∧
     (∀ t : String, ∃ dc ic, (processTextNode (fun _ _ => "Z") t).2.2 = dc ++ ic ∧
        (∀ p ∈ dc, p.2 = true) ∧ (∀ p ∈ ic, p.2 = false))) :=
  ⟨by decide, display_before_inline (fun _ _ => "Z") (by decide)⟩

end MathRenderer
